import Mathlib

/-!
# Verification of the marketplace simulation core (`src/lib/blockchainService.ts`)

This file is a shallow embedding of the transactional state-management core of
the artisan-marketplace simulation: the in-memory catalog of products, the
artisan identity registry, the per-address collectible (NFT) ledger and the
per-product provenance ledger, together with the core operations
`addProduct`, `updateProduct`, `removeProduct`, `purchaseProduct` and the
query operations.

Modelling conventions:
* Timestamps (ISO date strings in the source) are modelled as natural numbers;
  the source only ever compares them through `Date.getTime()`.
* JavaScript `Record<string, T>` objects are modelled as association lists
  with first-match lookup (`recGet`) and in-place update (`recSet`).
* The external wallet (`window.ethereum`) is modelled by environment records:
  `hasEthereum` for presence of the provider and `signerResult` for the
  outcome of `eth_sendTransaction` (`some hash` when the user approves,
  `none` when the request is rejected or errors).
* Nondeterministic data (generated ids, clock readings) is passed in through
  the same environment records.
* JavaScript numbers are IEEE-754 binary64 values; the positive ones used by
  the price conversion are modelled exactly as dyadic rationals `num / 2^exp`.
-/

/-- ASCII lowercasing of one character (the address strings handled by the
service are ASCII, where JavaScript `toLowerCase` acts exactly like this). -/
def lowerChar (c : Char) : Char :=
  if 'A' ≤ c ∧ c ≤ 'Z' then Char.ofNat (c.toNat + 32) else c

/-- Model of JavaScript `String.prototype.toLowerCase` on ASCII strings. -/
def toLowerCase (s : String) : String := ⟨s.data.map lowerChar⟩

/-- Model of JavaScript `s.substring(0, n)` (take the first `n` characters). -/
def strTake (s : String) (n : ℕ) : String := ⟨s.data.take n⟩

/-- A positive JavaScript number (IEEE-754 binary64), represented exactly as
the dyadic rational `num / 2 ^ exp`.  Every finite double is of this form. -/
structure JsNumber where
  num : ℕ
  exp : ℕ
deriving DecidableEq

/-- Artisan identity record (`Artisan` in `src/types`). -/
structure Artisan where
  id : String
  name : String
  walletAddress : String
deriving DecidableEq

/-- Catalog entry (`Product` in `src/types`).  `ownerAddress` is optional in
the source (absent until the product is sold). -/
structure Product where
  id : String
  artisanId : String
  name : String
  description : String
  materials : List String
  imageUrl : String
  price : JsNumber
  isVerified : Bool
  creationDate : ℕ
  isSold : Bool
  ownerAddress : Option String
deriving DecidableEq

/-- One provenance record (`ProductProvenance.history` element). -/
structure ProvenanceEntry where
  event : String
  timestamp : ℕ
  actorAddress : String
  details : String
deriving DecidableEq

/-- Per-product provenance ledger (`ProductProvenance` in `src/types`). -/
structure ProductProvenance where
  productId : String
  history : List ProvenanceEntry
deriving DecidableEq

/-- Issued collectible (`NFT` in `src/types`). -/
structure NFT where
  tokenId : String
  contractAddress : String
  name : String
  imageUrl : String
  description : String
  artisanName : String
deriving DecidableEq

/-- The module-level mutable state of `blockchainService.ts`:
`currentProducts`, `currentArtisans`, `currentUserNfts`,
`currentProductProvenance`. -/
structure Store where
  currentProducts : List Product
  currentArtisans : List Artisan
  currentUserNfts : List (String × List NFT)
  currentProductProvenance : List (String × ProductProvenance)
deriving DecidableEq

/-- Lookup in a JavaScript-object model (first binding wins). -/
def recGet (l : List (String × α)) (k : String) : Option α :=
  (l.find? (fun kv => kv.1 == k)).map (fun kv => kv.2)

/-- Key assignment in a JavaScript-object model: overwrite the existing
binding in place, or append a new one. -/
def recSet (l : List (String × α)) (k : String) (v : α) : List (String × α) :=
  match l with
  | [] => [(k, v)]
  | kv :: rest => if kv.1 == k then (k, v) :: rest else kv :: recSet rest k v

/-- JavaScript `delete obj[k]`. -/
def recDelete (l : List (String × α)) (k : String) : List (String × α) :=
  l.filter (fun kv => kv.1 != k)

def MOCK_PRODUCT_REGISTRY_CONTRACT_ADDRESS : String :=
  "0xMockProductRegistryContract0123456789"

def MOCK_NFT_MARKETPLACE_CONTRACT_ADDRESS : String :=
  "0xMockMarketplaceContract0123456789abc"

/-! ## The binary64 model of the price conversion

The source converts a price to wei with `BigInt(Math.round(priceInEth * 1e18))`
where `priceInEth` is a JavaScript number (binary64).  We model the positive
normal range of binary64 exactly: a double is a dyadic rational `m / 2^k`,
and multiplication rounds the exact product to the nearest representable
value, ties to even. -/

/-- Round the fraction `a / b` (with `b > 0`) to the nearest natural number,
ties to even — the IEEE-754 default rounding applied to the scaled mantissa. -/
def rneFrac (a b : ℕ) : ℕ :=
  let q := a / b
  let r := a % b
  if 2 * r < b then q
  else if b < 2 * r then q + 1
  else if q % 2 = 0 then q else q + 1

/-- Largest `e` (up to the fuel) with `d * 2^e ≤ n`; fuel-bounded search used
for binade finding when `n / d ≥ 1`. -/
def binUp : ℕ → ℕ → ℕ → ℕ → ℕ
  | 0, _, _, e => e
  | f + 1, n, d, e => if d * 2 ^ (e + 1) ≤ n then binUp f n d (e + 1) else e

/-- Smallest `k` (up to the fuel) with `d ≤ n * 2^k`; fuel-bounded search used
for binade finding when `n / d < 1`. -/
def binDown : ℕ → ℕ → ℕ → ℕ → ℕ
  | 0, _, _, k => k
  | f + 1, n, d, k => if d ≤ n * 2 ^ k then k else binDown f n d (k + 1)

/-- Round the positive rational `n / d` to the nearest IEEE-754 binary64 value
(round to nearest, ties to even), returned as a dyadic pair `(m, k)` with
value `m / 2^k`.  Faithful on the normal range of binary64, which covers every
value arising in the price conversion. -/
def flFrac (n d : ℕ) : ℕ × ℕ :=
  if d ≤ n then
    let e := binUp 1100 n d 0
    if e ≤ 52 then (rneFrac (n * 2 ^ (52 - e)) d, 52 - e)
    else (rneFrac n (d * 2 ^ (e - 52)) * 2 ^ (e - 52), 0)
  else
    let k := binDown 1100 n d 0
    (rneFrac (n * 2 ^ (52 + k)) d, 52 + k)

/-- JavaScript `Math.round` on a nonnegative double given as the dyadic
`m / 2^k`: the nearest integer, halves rounding up. -/
def jsMathRound (m k : ℕ) : ℕ :=
  if k = 0 then m else (m + 2 ^ (k - 1)) / 2 ^ k

/-- The source's conversion `BigInt(Math.round(priceInEth * 1e18))`
(`purchaseProduct`, line 211), performed in binary64: the exact product
`price · 10^18` is rounded to the nearest double, then `Math.round` is
applied. -/
def jsPriceInWei (price : JsNumber) : ℕ :=
  let p := flFrac (price.num * 10 ^ 18) (2 ^ price.exp)
  jsMathRound p.1 p.2

/-- The conversion applied to a decimal price input `a / b`: the JavaScript
parser first rounds the decimal to the nearest double, then the source
converts that double. -/
def jsPriceInWeiDec (a b : ℕ) : ℕ :=
  let x := flFrac a b
  jsPriceInWei ⟨x.1, x.2⟩

/-- Modelled from the spec: `round(price × 10^18)` in exact rational
arithmetic, for the decimal price `a / b` (nearest integer, halves up).  This
is the spec's stated bit-exact contract, used to compare against the code's
binary64 computation `jsPriceInWei`. -/
def specWei (a b : ℕ) : ℕ :=
  (2 * (a * 10 ^ 18) + b) / (2 * b)

/-! ## The operations -/

/-- Replace the first product whose `id` equals `pid` (the source's
`findIndex` followed by assignment at that index). -/
def replaceFirst (l : List Product) (pid : String) (f : Product → Product) :
    List Product :=
  match l with
  | [] => []
  | p :: ps => if p.id == pid then f p :: ps else p :: replaceFirst ps pid f

/-- Remove the first product whose `id` equals `pid` (the source's
`findIndex` followed by `splice(index, 1)`). -/
def removeFirst (l : List Product) (pid : String) : List Product :=
  match l with
  | [] => []
  | p :: ps => if p.id == pid then ps else p :: removeFirst ps pid

/-- Data supplied by the caller of `addProduct`
(`Omit<Product, 'id' | 'creationDate' | 'isSold' | 'ownerAddress' | 'artisanId'>`). -/
structure ProductData where
  name : String
  description : String
  materials : List String
  imageUrl : String
  price : JsNumber
  isVerified : Bool
deriving DecidableEq

/-- External environment of one `addProduct` call: wallet presence, the
signer's response, the generated product id, and the two clock readings. -/
structure AddEnv where
  hasEthereum : Bool
  signerResult : Option String
  newId : String
  mintTime : ℕ
  listTime : ℕ
deriving DecidableEq

/-- Result record of `addProduct`. -/
structure AddResult where
  success : Bool
  product : Option Product
  transactionHash : Option String
deriving DecidableEq

/-- The provenance entry `'Created & Minted by Artisan'` appended on minting. -/
def createdEntry (name wallet txHash : String) (t : ℕ) : ProvenanceEntry :=
  ⟨"Created & Minted by Artisan", t, wallet,
    "Initial minting of " ++ name ++ ". Tx: " ++ strTake txHash 10 ++ "..."⟩

/-- The details string of the `'Listed for Sale'` provenance entry; it embeds
the listing price (the JavaScript template literal interpolating the numeric
price is abstracted by rendering the exact dyadic components). -/
def listedDetails (price : JsNumber) : String :=
  "Price set at " ++ Nat.repr price.num ++ "e-2^" ++ Nat.repr price.exp ++ " ETH"

/-- The provenance entry `'Listed for Sale'` appended on minting. -/
def listedEntry (wallet : String) (price : JsNumber) (t : ℕ) : ProvenanceEntry :=
  ⟨"Listed for Sale", t, wallet, listedDetails price⟩

/-- `addProduct` (`blockchainService.ts` lines 84–144): resolve the artisan by
wallet address (case-insensitive), require the wallet provider, submit the
mint transaction, and on approval append the new product and initialize its
provenance ledger with the Created and Listed entries. -/
def addProduct (st : Store) (productData : ProductData) (artisanWallet : String)
    (env : AddEnv) : AddResult × Store :=
  match st.currentArtisans.find?
      (fun a => toLowerCase a.walletAddress == toLowerCase artisanWallet) with
  | none => (⟨false, none, none⟩, st)
  | some artisan =>
    if !env.hasEthereum then (⟨false, none, none⟩, st)
    else
      match env.signerResult with
      | none => (⟨false, none, none⟩, st)
      | some txHash =>
        let newProduct : Product :=
          { id := env.newId
            artisanId := artisan.id
            name := productData.name
            description := productData.description
            materials := productData.materials
            imageUrl := productData.imageUrl
            price := productData.price
            isVerified := productData.isVerified
            creationDate := env.mintTime
            isSold := false
            ownerAddress := none }
        (⟨true, some newProduct, some txHash⟩,
          { st with
            currentProducts := st.currentProducts ++ [newProduct],
            currentProductProvenance :=
              recSet st.currentProductProvenance env.newId
                ⟨env.newId,
                  [createdEntry newProduct.name artisanWallet txHash env.mintTime,
                   listedEntry artisanWallet newProduct.price env.listTime]⟩ })

/-- A partial update payload (`Partial<Product>`): every field optional, a
present field overwrites the stored one (JavaScript spread merge). -/
structure ProductPatch where
  id : Option String := none
  artisanId : Option String := none
  name : Option String := none
  description : Option String := none
  materials : Option (List String) := none
  imageUrl : Option String := none
  price : Option JsNumber := none
  isVerified : Option Bool := none
  creationDate : Option ℕ := none
  isSold : Option Bool := none
  ownerAddress : Option (Option String) := none
deriving DecidableEq

/-- The shallow merge `{ ...product, ...productData }` of `updateProduct`. -/
def mergeProduct (p : Product) (d : ProductPatch) : Product :=
  { id := d.id.getD p.id
    artisanId := d.artisanId.getD p.artisanId
    name := d.name.getD p.name
    description := d.description.getD p.description
    materials := d.materials.getD p.materials
    imageUrl := d.imageUrl.getD p.imageUrl
    price := d.price.getD p.price
    isVerified := d.isVerified.getD p.isVerified
    creationDate := d.creationDate.getD p.creationDate
    isSold := d.isSold.getD p.isSold
    ownerAddress := d.ownerAddress.getD p.ownerAddress }

/-- `updateProduct` (`blockchainService.ts` lines 147–170): not-found check,
then authorization (the artisan resolved from the wallet address must own the
product), then shallow merge and an `'Product Updated'` provenance entry
(appended only when a ledger exists). -/
def updateProduct (st : Store) (productId : String) (productData : ProductPatch)
    (artisanWallet : String) (now : ℕ) : Option Product × Store :=
  match st.currentProducts.find? (fun p => p.id == productId) with
  | none => (none, st)
  | some product =>
    match st.currentArtisans.find?
        (fun a => toLowerCase a.walletAddress == toLowerCase artisanWallet) with
    | none => (none, st)
    | some artisan =>
      if product.artisanId != artisan.id then (none, st)
      else
        let updated := mergeProduct product productData
        let entry : ProvenanceEntry :=
          ⟨"Product Updated", now, artisanWallet,
            "Details of " ++ updated.name ++ " updated."⟩
        let prov' :=
          match recGet st.currentProductProvenance productId with
          | some pp =>
            recSet st.currentProductProvenance productId
              ⟨pp.productId, pp.history ++ [entry]⟩
          | none => st.currentProductProvenance
        (some updated,
          { st with
            currentProducts :=
              replaceFirst st.currentProducts productId
                (fun p => mergeProduct p productData),
            currentProductProvenance := prov' })

/-- `removeProduct` (`blockchainService.ts` lines 172–190): not-found check,
authorization, then splice the product out and delete its provenance ledger. -/
def removeProduct (st : Store) (productId artisanWallet : String) :
    Bool × Store :=
  match st.currentProducts.find? (fun p => p.id == productId) with
  | none => (false, st)
  | some product =>
    match st.currentArtisans.find?
        (fun a => toLowerCase a.walletAddress == toLowerCase artisanWallet) with
    | none => (false, st)
    | some artisan =>
      if product.artisanId != artisan.id then (false, st)
      else
        (true,
          { st with
            currentProducts := removeFirst st.currentProducts productId,
            currentProductProvenance :=
              recDelete st.currentProductProvenance productId })

/-- External environment of one `purchaseProduct` call. -/
structure PurchaseEnv where
  hasEthereum : Bool
  signerResult : Option String
  saleTime : ℕ
deriving DecidableEq

/-- Result record of `purchaseProduct`. -/
structure PurchaseResult where
  success : Bool
  transactionHash : Option String
deriving DecidableEq

/-- The transaction specification submitted by `purchaseProduct`
(`blockchainService.ts` lines 213–218): destination is the marketplace
contract, source is the buyer, value is the converted price. -/
structure TxParams where
  toAddr : String
  fromAddr : String
  value : ℕ
  data : String
deriving DecidableEq

/-- Build the purchase transaction parameters from the product, buyer and
price argument. -/
def purchaseTxParams (product : Product) (buyerAddress : String)
    (priceInEth : JsNumber) : TxParams :=
  { toAddr := MOCK_NFT_MARKETPLACE_CONTRACT_ADDRESS
    fromAddr := buyerAddress
    value := jsPriceInWei priceInEth
    data := "0xSIMULATED_PURCHASE_DATA_FOR_" ++ product.id }

/-- The collectible issued by a successful purchase
(`blockchainService.ts` lines 230–237).  JavaScript `artisan?.name ||
'Unknown Artisan'` falls back on a missing artisan and on an empty name. -/
def purchasedNft (st : Store) (product : Product) : NFT :=
  { tokenId := product.id
    contractAddress := MOCK_PRODUCT_REGISTRY_CONTRACT_ADDRESS
    name := product.name
    imageUrl := product.imageUrl
    description := product.description
    artisanName :=
      match st.currentArtisans.find? (fun a => a.id == product.artisanId) with
      | some a => if a.name == "" then "Unknown Artisan" else a.name
      | none => "Unknown Artisan" }

/-- The `'Sold'` provenance entry appended by a successful purchase. -/
def soldEntry (buyerAddress txHash : String) (t : ℕ) : ProvenanceEntry :=
  ⟨"Sold", t, buyerAddress,
    "Purchased by " ++ strTake buyerAddress 6 ++ "... Tx: " ++
      strTake txHash 10 ++ "..."⟩

/-- `purchaseProduct` (`blockchainService.ts` lines 192–272): availability
check (`NotAvailable` when missing or already sold), wallet-presence check,
transaction submission; on approval, append the collectible under the
lowercased buyer address, mark the product sold with the buyer as owner, and
append a `'Sold'` provenance entry (creating the ledger if missing). -/
def purchaseProduct (st : Store) (productId buyerAddress : String)
    (priceInEth : JsNumber) (env : PurchaseEnv) : PurchaseResult × Store :=
  match st.currentProducts.find? (fun p => p.id == productId) with
  | none => (⟨false, none⟩, st)
  | some product =>
    if product.isSold then (⟨false, none⟩, st)
    else if !env.hasEthereum then (⟨false, none⟩, st)
    else
      match env.signerResult with
      | none => (⟨false, none⟩, st)
      | some txHash =>
        let newNft := purchasedNft st product
        let key := toLowerCase buyerAddress
        let prev := (recGet st.currentUserNfts key).getD []
        let products' :=
          replaceFirst st.currentProducts productId
            (fun p => { p with isSold := true, ownerAddress := some buyerAddress })
        let entry := soldEntry buyerAddress txHash env.saleTime
        let prov' :=
          match recGet st.currentProductProvenance productId with
          | some pp =>
            recSet st.currentProductProvenance productId
              ⟨pp.productId, pp.history ++ [entry]⟩
          | none =>
            recSet st.currentProductProvenance productId ⟨productId, [entry]⟩
        (⟨true, some txHash⟩,
          { st with
            currentProducts := products',
            currentUserNfts := recSet st.currentUserNfts key (prev ++ [newNft]),
            currentProductProvenance := prov' })

/-- `getProductById` (`blockchainService.ts` lines 275–278). -/
def getProductById (st : Store) (productId : String) : Option Product :=
  st.currentProducts.find? (fun p => p.id == productId)

/-- The sold rank used by the `getAllProducts` comparator
(`a.isSold ? 1 : 0`). -/
def soldRank (p : Product) : ℤ := if p.isSold then 1 else 0

/-- The `getAllProducts` comparator
`(a.isSold ? 1 : 0) - (b.isSold ? 1 : 0) || timeB - timeA`. -/
def jsCmp (a b : Product) : ℤ :=
  if soldRank a - soldRank b ≠ 0 then soldRank a - soldRank b
  else (b.creationDate : ℤ) - (a.creationDate : ℤ)

/-- The "precedes or ties" relation induced by the comparator: `cmp(a,b) ≤ 0`. -/
def saleOrder (a b : Product) : Prop := jsCmp a b ≤ 0

instance : DecidableRel saleOrder :=
  fun a b => inferInstanceAs (Decidable (jsCmp a b ≤ 0))

/-- `getAllProducts` (`blockchainService.ts` lines 280–284): a copy of the
catalog sorted by the comparator above.  ECMAScript `Array.prototype.sort`
with a consistent comparator produces the stable sort, modelled here by
insertion sort (which is stable). -/
def getAllProducts (st : Store) : List Product :=
  List.insertionSort saleOrder st.currentProducts

/-- `getProductProvenance` (`blockchainService.ts` lines 293–296). -/
def getProductProvenance (st : Store) (productId : String) :
    Option ProductProvenance :=
  recGet st.currentProductProvenance productId

/-- `getUserNfts` (`blockchainService.ts` lines 298–302). -/
def getUserNfts (st : Store) (userAddress : String) : List NFT :=
  (recGet st.currentUserNfts (toLowerCase userAddress)).getD []

/-! ## Invariants and the operation trace -/

/-- The provenance history of a product id (empty when no ledger exists). -/
def provHistory (st : Store) (pid : String) : List ProvenanceEntry :=
  ((recGet st.currentProductProvenance pid).map
    (fun pp => pp.history)).getD []

/-- The provenance history of `pid` contains an entry with event `"Sold"`. -/
def hasSoldEntry (st : Store) (pid : String) : Prop :=
  ∃ e ∈ provHistory st pid, e.event = "Sold"

instance (st : Store) (pid : String) : Decidable (hasSoldEntry st pid) :=
  inferInstanceAs (Decidable (∃ e ∈ provHistory st pid, e.event = "Sold"))

/-- The sold-state coupling invariant: for every catalog product,
`isSold` holds iff `ownerAddress` is set, iff the provenance history
contains a `"Sold"` entry. -/
def SoldInvariant (st : Store) : Prop :=
  ∀ p ∈ st.currentProducts,
    (p.isSold = true ↔ p.ownerAddress ≠ none) ∧
    (p.isSold = true ↔ hasSoldEntry st p.id)

instance (st : Store) : Decidable (SoldInvariant st) :=
  inferInstanceAs (Decidable (∀ p ∈ st.currentProducts, _ ∧ _))

/-- The ids of the catalog products. -/
def productIds (st : Store) : List String :=
  st.currentProducts.map (fun p => p.id)

/-- Well-formedness of a store: distinct product ids plus the sold-state
coupling invariant. -/
def WellFormed (st : Store) : Prop :=
  (productIds st).Nodup ∧ SoldInvariant st

instance (st : Store) : Decidable (WellFormed st) :=
  inferInstanceAs (Decidable (_ ∧ _))

/-- One core operation together with its external environment. -/
inductive Op where
  | add (productData : ProductData) (artisanWallet : String) (env : AddEnv)
  | update (productId : String) (productData : ProductPatch)
      (artisanWallet : String) (now : ℕ)
  | remove (productId artisanWallet : String)
  | purchase (productId buyerAddress : String) (priceInEth : JsNumber)
      (env : PurchaseEnv)

/-- The state transition of one operation (result discarded). -/
def applyOp (st : Store) : Op → Store
  | .add d w e => (addProduct st d w e).2
  | .update pid d w now => (updateProduct st pid d w now).2
  | .remove pid w => (removeProduct st pid w).2
  | .purchase pid b price e => (purchaseProduct st pid b price e).2

/-- Run a sequence of core operations. -/
def run (st : Store) (ops : List Op) : Store :=
  ops.foldl applyOp st

/-- An update payload is tame when it does not overwrite the
lifecycle-controlled fields `id`, `creationDate`, `isSold`, `ownerAddress`.
All non-update operations are tame. -/
def TameOp : Op → Prop
  | .update _ d _ _ =>
      d.id = none ∧ d.creationDate = none ∧ d.isSold = none ∧
        d.ownerAddress = none
  | _ => True

instance : ∀ op, Decidable (TameOp op) := fun op => by
  cases op with
  | add d w e => exact inferInstanceAs (Decidable True)
  | update pid d w now => exact inferInstanceAs (Decidable (_ ∧ _ ∧ _ ∧ _))
  | remove pid w => exact inferInstanceAs (Decidable True)
  | purchase pid b price e => exact inferInstanceAs (Decidable True)

/-- The product ids generated by the `add` operations of a trace. -/
def genIds (ops : List Op) : List String :=
  ops.filterMap (fun op =>
    match op with
    | .add _ _ e => some e.newId
    | _ => none)

/-- The temporal per-product guarantees between two states: a product
present in both (matched by id) keeps its creation date, never reverts
`isSold` from `true` to `false`, and never changes a set `ownerAddress`. -/
def FieldsPreserved (st st' : Store) : Prop :=
  ∀ p ∈ st.currentProducts, ∀ p' ∈ st'.currentProducts, p.id = p'.id →
    p.creationDate = p'.creationDate ∧
    (p.isSold = true → p'.isSold = true) ∧
    (p.ownerAddress.isSome = true → p'.ownerAddress = p.ownerAddress)

instance (st st' : Store) : Decidable (FieldsPreserved st st') :=
  inferInstanceAs
    (Decidable (∀ p ∈ st.currentProducts, ∀ p' ∈ st'.currentProducts, _ → _))

/-! ## Sample data (used by the concrete witnesses) -/

def aliceArtisan : Artisan := ⟨"artisan-1", "Alice", "0xAliceWallet"⟩

def bobArtisan : Artisan := ⟨"artisan-2", "Bob", "0xBobWallet"⟩

def vaseProduct : Product :=
  ⟨"product-1", "artisan-1", "Vase", "A clay vase", ["clay"], "img1",
    ⟨5, 0⟩, true, 10, false, none⟩

def bowlProduct : Product :=
  ⟨"product-2", "artisan-1", "Bowl", "A wooden bowl", ["wood"], "img2",
    ⟨3, 0⟩, false, 5, true, some "0xCarol"⟩

def vaseProvenance : ProductProvenance :=
  ⟨"product-1",
    [⟨"Created & Minted by Artisan", 10, "0xAliceWallet", "init"⟩,
     ⟨"Listed for Sale", 11, "0xAliceWallet", "listed"⟩]⟩

def bowlProvenance : ProductProvenance :=
  ⟨"product-2",
    [⟨"Created & Minted by Artisan", 5, "0xAliceWallet", "init"⟩,
     ⟨"Sold", 8, "0xCarol", "sold"⟩]⟩

def demoStore : Store :=
  ⟨[vaseProduct, bowlProduct], [aliceArtisan, bobArtisan], [],
    [("product-1", vaseProvenance), ("product-2", bowlProvenance)]⟩


/-! ## Helper lemmas about the container operations -/

theorem recGet_recSet_self (l : List (String × α)) (k : String) (v : α) :
    recGet (recSet l k v) k = some v := by
  induction l with
  | nil => simp [recGet, recSet]
  | cons kv rest ih =>
    by_cases h : kv.1 = k
    · unfold recSet
      rw [if_pos (by simp [h])]
      simp [recGet, List.find?_cons_of_pos _ (by simp : (k == k) = true)]
    · unfold recSet
      rw [if_neg (by simp [h])]
      unfold recGet
      rw [List.find?_cons_of_neg _ (by simp [h])]
      exact ih

theorem recGet_cons_of_pos (kv : String × α) (rest : List (String × α))
    (k : String) (h : kv.1 = k) : recGet (kv :: rest) k = some kv.2 := by
  unfold recGet
  rw [List.find?_cons_of_pos rest (by simp [h])]
  rfl

theorem recGet_cons_of_neg (kv : String × α) (rest : List (String × α))
    (k : String) (h : ¬kv.1 = k) : recGet (kv :: rest) k = recGet rest k := by
  unfold recGet
  rw [List.find?_cons_of_neg rest (by simp [h])]

theorem recGet_recSet_ne (l : List (String × α)) (k k' : String) (v : α)
    (h : k' ≠ k) : recGet (recSet l k v) k' = recGet l k' := by
  induction l with
  | nil =>
    show recGet [(k, v)] k' = none
    rw [recGet_cons_of_neg _ _ _ (Ne.symm h)]
    rfl
  | cons kv rest ih =>
    by_cases hk : kv.1 = k
    · unfold recSet
      rw [if_pos (by simp [hk])]
      rw [recGet_cons_of_neg (k, v) rest k' (Ne.symm h),
        recGet_cons_of_neg kv rest k' (by rw [hk]; exact Ne.symm h)]
    · unfold recSet
      rw [if_neg (by simp [hk])]
      by_cases hk' : kv.1 = k'
      · rw [recGet_cons_of_pos _ _ _ hk', recGet_cons_of_pos _ _ _ hk']
      · rw [recGet_cons_of_neg _ _ _ hk', recGet_cons_of_neg _ _ _ hk']
        exact ih

theorem recGet_recDelete_self (l : List (String × α)) (k : String) :
    recGet (recDelete l k) k = none := by
  induction l with
  | nil => rfl
  | cons kv rest ih =>
    by_cases h : kv.1 = k
    · unfold recDelete at ih ⊢
      rw [List.filter_cons_of_neg (by simp [h])]
      exact ih
    · unfold recDelete at ih ⊢
      rw [List.filter_cons_of_pos (by simp [h])]
      unfold recGet
      rw [List.find?_cons_of_neg _ (by simp [h])]
      exact ih

theorem recGet_recDelete_ne (l : List (String × α)) (k k' : String)
    (h : k' ≠ k) : recGet (recDelete l k) k' = recGet l k' := by
  induction l with
  | nil => rfl
  | cons kv rest ih =>
    by_cases hk : kv.1 = k
    · unfold recDelete at ih ⊢
      rw [List.filter_cons_of_neg (by simp [hk])]
      rw [recGet_cons_of_neg kv rest k' (by rw [hk]; exact Ne.symm h)]
      exact ih
    · unfold recDelete at ih ⊢
      rw [List.filter_cons_of_pos (by simp [hk])]
      by_cases hk' : kv.1 = k'
      · rw [recGet_cons_of_pos _ _ _ hk', recGet_cons_of_pos _ _ _ hk']
      · rw [recGet_cons_of_neg _ _ _ hk', recGet_cons_of_neg _ _ _ hk']
        exact ih

theorem find?_replaceFirst_self (l : List Product) (pid : String)
    (f : Product → Product) (hf : ∀ p, (f p).id = p.id) :
    (replaceFirst l pid f).find? (fun p => p.id == pid) =
      (l.find? (fun p => p.id == pid)).map f := by
  induction l with
  | nil => rfl
  | cons p ps ih =>
    by_cases h : p.id = pid
    · unfold replaceFirst
      rw [if_pos (by simp [h])]
      rw [List.find?_cons_of_pos _ (by simp [hf, h]),
        List.find?_cons_of_pos _ (by simp [h])]
      rfl
    · unfold replaceFirst
      rw [if_neg (by simp [h])]
      rw [List.find?_cons_of_neg _ (by simp [h]),
        List.find?_cons_of_neg _ (by simp [h])]
      exact ih

theorem find?_replaceFirst_ne (l : List Product) (pid q : String)
    (f : Product → Product) (hf : ∀ p, (f p).id = p.id) (hq : q ≠ pid) :
    (replaceFirst l pid f).find? (fun p => p.id == q) =
      l.find? (fun p => p.id == q) := by
  induction l with
  | nil => rfl
  | cons p ps ih =>
    by_cases h : p.id = pid
    · unfold replaceFirst
      rw [if_pos (by simp [h])]
      rw [List.find?_cons_of_neg _ (by simp [hf, h, Ne.symm hq]),
        List.find?_cons_of_neg _ (by simp [h, Ne.symm hq])]
    · unfold replaceFirst
      rw [if_neg (by simp [h])]
      by_cases hpq : p.id = q
      · rw [List.find?_cons_of_pos _ (by simp [hpq]),
          List.find?_cons_of_pos _ (by simp [hpq])]
      · rw [List.find?_cons_of_neg _ (by simp [hpq]),
          List.find?_cons_of_neg _ (by simp [hpq])]
        exact ih

theorem map_id_replaceFirst (l : List Product) (pid : String)
    (f : Product → Product) (hf : ∀ p, (f p).id = p.id) :
    (replaceFirst l pid f).map (fun p => p.id) = l.map (fun p => p.id) := by
  induction l with
  | nil => rfl
  | cons p ps ih =>
    by_cases h : p.id = pid
    · unfold replaceFirst
      rw [if_pos (by simp [h])]
      simp [hf]
    · unfold replaceFirst
      rw [if_neg (by simp [h])]
      simpa using ih

theorem mem_replaceFirst (l : List Product) (pid : String)
    (f : Product → Product) (prod : Product)
    (hfind : l.find? (fun p => p.id == pid) = some prod)
    (a : Product) (ha : a ∈ replaceFirst l pid f) :
    a ∈ l ∨ a = f prod := by
  induction l with
  | nil => simp [replaceFirst] at ha
  | cons p ps ih =>
    by_cases h : p.id = pid
    · rw [List.find?_cons_of_pos _ (by simp [h]), Option.some.injEq] at hfind
      unfold replaceFirst at ha
      rw [if_pos (by simp [h])] at ha
      rcases List.mem_cons.mp ha with ha | ha
      · right; rw [ha, hfind]
      · left; exact List.mem_cons_of_mem _ ha
    · rw [List.find?_cons_of_neg _ (by simp [h])] at hfind
      unfold replaceFirst at ha
      rw [if_neg (by simp [h])] at ha
      rcases List.mem_cons.mp ha with ha | ha
      · left; simp [ha]
      · rcases ih hfind ha with h' | h'
        · left; exact List.mem_cons_of_mem _ h'
        · right; exact h'

theorem mem_replaceFirst_nodup (l : List Product) (pid : String)
    (f : Product → Product) (prod : Product)
    (hnd : (l.map (fun p => p.id)).Nodup)
    (hfind : l.find? (fun p => p.id == pid) = some prod)
    (a : Product) (ha : a ∈ replaceFirst l pid f) :
    (a ∈ l ∧ a.id ≠ pid) ∨ a = f prod := by
  induction l with
  | nil => simp [replaceFirst] at ha
  | cons p ps ih =>
    simp only [List.map_cons, List.nodup_cons] at hnd
    by_cases h : p.id = pid
    · rw [List.find?_cons_of_pos _ (by simp [h]), Option.some.injEq] at hfind
      unfold replaceFirst at ha
      rw [if_pos (by simp [h])] at ha
      rcases List.mem_cons.mp ha with ha | ha
      · right; rw [ha, hfind]
      · left
        refine ⟨List.mem_cons_of_mem _ ha, fun hc => hnd.1 ?_⟩
        rw [h, ← hc]
        exact List.mem_map_of_mem _ ha
    · rw [List.find?_cons_of_neg _ (by simp [h])] at hfind
      unfold replaceFirst at ha
      rw [if_neg (by simp [h])] at ha
      rcases List.mem_cons.mp ha with ha | ha
      · left; constructor
        · simp [ha]
        · rw [ha]; exact h
      · rcases ih hnd.2 hfind ha with ⟨h1, h2⟩ | h'
        · exact Or.inl ⟨List.mem_cons_of_mem _ h1, h2⟩
        · exact Or.inr h'

theorem removeFirst_sublist (l : List Product) (pid : String) :
    (removeFirst l pid).Sublist l := by
  induction l with
  | nil => simp [removeFirst]
  | cons p ps ih =>
    by_cases h : p.id = pid
    · unfold removeFirst
      rw [if_pos (by simp [h])]
      exact List.sublist_cons_self p ps
    · unfold removeFirst
      rw [if_neg (by simp [h])]
      exact ih.cons₂ p

theorem mem_removeFirst_nodup (l : List Product) (pid : String)
    (hnd : (l.map (fun p => p.id)).Nodup)
    (a : Product) (ha : a ∈ removeFirst l pid) :
    a ∈ l ∧ a.id ≠ pid := by
  induction l with
  | nil => simp [removeFirst] at ha
  | cons p ps ih =>
    simp only [List.map_cons, List.nodup_cons] at hnd
    by_cases h : p.id = pid
    · unfold removeFirst at ha
      rw [if_pos (by simp [h])] at ha
      refine ⟨List.mem_cons_of_mem _ ha, fun hc => hnd.1 ?_⟩
      rw [h, ← hc]
      exact List.mem_map_of_mem _ ha
    · unfold removeFirst at ha
      rw [if_neg (by simp [h])] at ha
      rcases List.mem_cons.mp ha with ha | ha
      · exact ⟨by simp [ha], by rw [ha]; exact h⟩
      · rcases ih hnd.2 ha with ⟨h1, h2⟩
        exact ⟨List.mem_cons_of_mem _ h1, h2⟩


/-! ## Branch equations of the operations -/

/-- The product record created by a successful `addProduct`. -/
def mintedProduct (d : ProductData) (artisanId : String) (env : AddEnv) :
    Product :=
  { id := env.newId
    artisanId := artisanId
    name := d.name
    description := d.description
    materials := d.materials
    imageUrl := d.imageUrl
    price := d.price
    isVerified := d.isVerified
    creationDate := env.mintTime
    isSold := false
    ownerAddress := none }

theorem addProduct_success_eq (st : Store) (d : ProductData) (w : String)
    (env : AddEnv) (artisan : Artisan) (txHash : String)
    (hart : st.currentArtisans.find?
      (fun a => toLowerCase a.walletAddress == toLowerCase w) = some artisan)
    (heth : env.hasEthereum = true) (hsig : env.signerResult = some txHash) :
    addProduct st d w env =
      (⟨true, some (mintedProduct d artisan.id env), some txHash⟩,
        { st with
          currentProducts :=
            st.currentProducts ++ [mintedProduct d artisan.id env],
          currentProductProvenance :=
            recSet st.currentProductProvenance env.newId
              ⟨env.newId,
                [createdEntry d.name w txHash env.mintTime,
                 listedEntry w d.price env.listTime]⟩ }) := by
  unfold addProduct
  simp only [hart, heth, hsig, Bool.not_true, Bool.false_eq_true, if_false,
    mintedProduct]

/-- The store produced by a successful `updateProduct`. -/
def updatedState (st : Store) (pid w : String) (d : ProductPatch)
    (product : Product) (now : ℕ) : Store :=
  { st with
    currentProducts :=
      replaceFirst st.currentProducts pid (fun p => mergeProduct p d),
    currentProductProvenance :=
      match recGet st.currentProductProvenance pid with
      | some pp =>
        recSet st.currentProductProvenance pid
          ⟨pp.productId, pp.history ++
            [⟨"Product Updated", now, w,
              "Details of " ++ (mergeProduct product d).name ++ " updated."⟩]⟩
      | none => st.currentProductProvenance }

theorem updateProduct_success_eq (st : Store) (pid w : String)
    (d : ProductPatch) (now : ℕ) (product : Product) (artisan : Artisan)
    (hfind : st.currentProducts.find? (fun p => p.id == pid) = some product)
    (hart : st.currentArtisans.find?
      (fun a => toLowerCase a.walletAddress == toLowerCase w) = some artisan)
    (hauth : product.artisanId = artisan.id) :
    updateProduct st pid d w now =
      (some (mergeProduct product d), updatedState st pid w d product now) := by
  unfold updateProduct
  simp only [hfind, hart, hauth, bne_self_eq_false, Bool.false_eq_true,
    if_false, updatedState, mergeProduct]

theorem updateProduct_unauthorized_eq (st : Store) (pid w : String)
    (d : ProductPatch) (now : ℕ) (product : Product)
    (hfind : st.currentProducts.find? (fun p => p.id == pid) = some product)
    (hart : (st.currentArtisans.find?
        (fun a => toLowerCase a.walletAddress == toLowerCase w) = none) ∨
      (∃ artisan, st.currentArtisans.find?
          (fun a => toLowerCase a.walletAddress == toLowerCase w) =
            some artisan ∧ product.artisanId ≠ artisan.id)) :
    updateProduct st pid d w now = (none, st) := by
  unfold updateProduct
  rcases hart with hart | ⟨artisan, hart, hne⟩
  · simp only [hfind, hart]
  · simp only [hfind, hart, if_pos (show (product.artisanId != artisan.id) = true by simp [hne])]

theorem removeProduct_success_eq (st : Store) (pid w : String)
    (product : Product) (artisan : Artisan)
    (hfind : st.currentProducts.find? (fun p => p.id == pid) = some product)
    (hart : st.currentArtisans.find?
      (fun a => toLowerCase a.walletAddress == toLowerCase w) = some artisan)
    (hauth : product.artisanId = artisan.id) :
    removeProduct st pid w =
      (true,
        { st with
          currentProducts := removeFirst st.currentProducts pid,
          currentProductProvenance :=
            recDelete st.currentProductProvenance pid }) := by
  unfold removeProduct
  simp only [hfind, hart, hauth, bne_self_eq_false, Bool.false_eq_true,
    if_false]

/-- The store produced by a successful `purchaseProduct`. -/
def purchasedState (st : Store) (pid b : String) (product : Product)
    (txHash : String) (t : ℕ) : Store :=
  { st with
    currentProducts :=
      replaceFirst st.currentProducts pid
        (fun p => { p with isSold := true, ownerAddress := some b }),
    currentUserNfts :=
      recSet st.currentUserNfts (toLowerCase b)
        (((recGet st.currentUserNfts (toLowerCase b)).getD []) ++
          [purchasedNft st product]),
    currentProductProvenance :=
      match recGet st.currentProductProvenance pid with
      | some pp =>
        recSet st.currentProductProvenance pid
          ⟨pp.productId, pp.history ++ [soldEntry b txHash t]⟩
      | none =>
        recSet st.currentProductProvenance pid ⟨pid, [soldEntry b txHash t]⟩ }

theorem purchaseProduct_success_eq (st : Store) (pid b : String)
    (price : JsNumber) (env : PurchaseEnv) (product : Product) (txHash : String)
    (hfind : st.currentProducts.find? (fun p => p.id == pid) = some product)
    (hunsold : product.isSold = false) (heth : env.hasEthereum = true)
    (hsig : env.signerResult = some txHash) :
    purchaseProduct st pid b price env =
      (⟨true, some txHash⟩,
        purchasedState st pid b product txHash env.saleTime) := by
  unfold purchaseProduct
  simp only [hfind, hunsold, heth, hsig, Bool.not_true, Bool.false_eq_true,
    if_false, purchasedState]

theorem purchaseProduct_notFound_eq (st : Store) (pid b : String)
    (price : JsNumber) (env : PurchaseEnv)
    (hfind : st.currentProducts.find? (fun p => p.id == pid) = none) :
    purchaseProduct st pid b price env = (⟨false, none⟩, st) := by
  unfold purchaseProduct
  simp only [hfind]

theorem purchaseProduct_sold_eq (st : Store) (pid b : String)
    (price : JsNumber) (env : PurchaseEnv) (product : Product)
    (hfind : st.currentProducts.find? (fun p => p.id == pid) = some product)
    (hsold : product.isSold = true) :
    purchaseProduct st pid b price env = (⟨false, none⟩, st) := by
  unfold purchaseProduct
  simp only [hfind, hsold, if_pos]

/-! ## Preservation of the sold-state invariant -/

theorem wellFormed_removeProduct (st : Store) (pid w : String)
    (hWF : WellFormed st) : WellFormed (removeProduct st pid w).2 := by
  unfold removeProduct
  cases hfind : st.currentProducts.find? (fun p => p.id == pid) with
  | none => exact hWF
  | some product =>
    cases hart : st.currentArtisans.find?
        (fun a => toLowerCase a.walletAddress == toLowerCase w) with
    | none => exact hWF
    | some artisan =>
      by_cases hauth : product.artisanId != artisan.id
      · simp only [hauth, if_true]
        exact hWF
      · simp only [hauth, if_false]
        constructor
        · have hsub : (removeFirst st.currentProducts pid).map (fun p => p.id)
              |>.Sublist (st.currentProducts.map (fun p => p.id)) :=
            (removeFirst_sublist st.currentProducts pid).map _
          exact hsub.nodup hWF.1
        · intro p' hp'
          have hmem := mem_removeFirst_nodup st.currentProducts pid hWF.1 p' hp'
          have hinv := hWF.2 p' hmem.1
          refine ⟨hinv.1, ?_⟩
          have hprov : provHistory
              { st with
                currentProducts := removeFirst st.currentProducts pid,
                currentProductProvenance :=
                  recDelete st.currentProductProvenance pid } p'.id =
              provHistory st p'.id := by
            simp only [provHistory]
            rw [recGet_recDelete_ne _ _ _ hmem.2]
          simpa [hasSoldEntry, hprov] using hinv.2

theorem wellFormed_addProduct (st : Store) (d : ProductData) (w : String)
    (env : AddEnv) (hWF : WellFormed st)
    (hfresh : env.newId ∉ productIds st) :
    WellFormed (addProduct st d w env).2 := by
  cases hart : st.currentArtisans.find?
      (fun a => toLowerCase a.walletAddress == toLowerCase w) with
  | none =>
    have heq : addProduct st d w env = (⟨false, none, none⟩, st) := by
      unfold addProduct
      simp only [hart]
    rw [heq]
    exact hWF
  | some artisan =>
    cases heth : env.hasEthereum with
    | false =>
      have heq : addProduct st d w env = (⟨false, none, none⟩, st) := by
        unfold addProduct
        simp [hart, heth]
      rw [heq]
      exact hWF
    | true =>
      cases hsig : env.signerResult with
      | none =>
        have heq : addProduct st d w env = (⟨false, none, none⟩, st) := by
          unfold addProduct
          simp [hart, heth, hsig]
        rw [heq]
        exact hWF
      | some txHash =>
        rw [addProduct_success_eq st d w env artisan txHash hart heth hsig]
        constructor
        · simp only [productIds, List.map_append, List.map_cons, List.map_nil]
          rw [List.nodup_append]
          refine ⟨hWF.1, List.nodup_singleton _, ?_⟩
          intro x hx hy
          simp only [List.mem_singleton] at hy
          have : x = env.newId := by
            rw [hy]
            rfl
          exact hfresh (this ▸ hx)
        · intro p' hp'
          simp only [List.mem_append, List.mem_singleton] at hp'
          rcases hp' with hp' | hp'
          · have hinv := hWF.2 p' hp'
            refine ⟨hinv.1, ?_⟩
            have hne : p'.id ≠ env.newId := by
              intro hc
              exact hfresh (hc ▸ List.mem_map_of_mem (fun p => p.id) hp')
            have hprov : provHistory
                { st with
                  currentProducts :=
                    st.currentProducts ++ [mintedProduct d artisan.id env],
                  currentProductProvenance :=
                    recSet st.currentProductProvenance env.newId
                      ⟨env.newId,
                        [createdEntry d.name w txHash env.mintTime,
                         listedEntry w d.price env.listTime]⟩ } p'.id =
                provHistory st p'.id := by
              simp only [provHistory]
              rw [recGet_recSet_ne _ _ _ _ hne]
            simpa [hasSoldEntry, hprov] using hinv.2
          · subst hp'
            refine ⟨by simp [mintedProduct], ?_⟩
            constructor
            · intro h
              simp [mintedProduct] at h
            · intro h
              exfalso
              simp only [hasSoldEntry, provHistory, mintedProduct] at h
              rw [recGet_recSet_self] at h
              simp only [Option.map_some', Option.getD_some] at h
              rcases h with ⟨e, he, hev⟩
              rcases List.mem_cons.mp he with he | he
              · rw [he] at hev
                exact absurd hev (by simp [createdEntry])
              · simp only [List.mem_singleton] at he
                rw [he] at hev
                exact absurd hev (by simp [listedEntry])

theorem wellFormed_updateProduct (st : Store) (pid : String) (d : ProductPatch)
    (w : String) (now : ℕ) (hWF : WellFormed st)
    (hid : d.id = none) (hsold : d.isSold = none)
    (howner : d.ownerAddress = none) :
    WellFormed (updateProduct st pid d w now).2 := by
  cases hfind : st.currentProducts.find? (fun p => p.id == pid) with
  | none =>
    have heq : updateProduct st pid d w now = (none, st) := by
      unfold updateProduct
      simp only [hfind]
    rw [heq]
    exact hWF
  | some product =>
    cases hart : st.currentArtisans.find?
        (fun a => toLowerCase a.walletAddress == toLowerCase w) with
    | none =>
      rw [updateProduct_unauthorized_eq st pid w d now product hfind
        (Or.inl hart)]
      exact hWF
    | some artisan =>
      by_cases hauth : product.artisanId = artisan.id
      · rw [updateProduct_success_eq st pid w d now product artisan hfind hart
          hauth]
        have hf : ∀ p : Product, (mergeProduct p d).id = p.id := fun p => by
          simp [mergeProduct, hid]
        have hpidEq : product.id = pid := by
          have := List.find?_some hfind
          simpa using this
        constructor
        · show (productIds (updatedState st pid w d product now)).Nodup
          simp only [productIds, updatedState]
          rw [map_id_replaceFirst _ _ _ hf]
          exact hWF.1
        · intro p' hp'
          simp only [updatedState] at hp'
          rcases mem_replaceFirst_nodup st.currentProducts pid _ product
              hWF.1 hfind p' hp' with ⟨hmem, hne⟩ | heqp
          · have hinv := hWF.2 p' hmem
            refine ⟨hinv.1, ?_⟩
            have hprov : provHistory (updatedState st pid w d product now)
                p'.id = provHistory st p'.id := by
              simp only [provHistory, updatedState]
              cases hpp : recGet st.currentProductProvenance pid with
              | none => rfl
              | some pp => rw [recGet_recSet_ne _ _ _ _ hne]
            simp only [hasSoldEntry]
            rw [hprov]
            exact hinv.2
          · have hinv := hWF.2 product (List.mem_of_find?_eq_some hfind)
            subst heqp
            have hisSold : (mergeProduct product d).isSold = product.isSold := by
              simp [mergeProduct, hsold]
            have hown : (mergeProduct product d).ownerAddress =
                product.ownerAddress := by
              simp [mergeProduct, howner]
            refine ⟨by rw [hisSold, hown]; exact hinv.1, ?_⟩
            rw [hisSold, hf, hpidEq]
            have hsame : hasSoldEntry (updatedState st pid w d product now)
                pid ↔ hasSoldEntry st pid := by
              cases hpp : recGet st.currentProductProvenance pid with
              | none => simp only [hasSoldEntry, provHistory, updatedState, hpp]
              | some pp =>
                simp only [hasSoldEntry, provHistory, updatedState, hpp]
                rw [recGet_recSet_self]
                simp only [Option.map_some', Option.getD_some]
                constructor
                · rintro ⟨e, he, hev⟩
                  rcases List.mem_append.mp he with he | he
                  · exact ⟨e, he, hev⟩
                  · simp only [List.mem_singleton] at he
                    rw [he] at hev
                    exact absurd hev (by simp)
                · rintro ⟨e, he, hev⟩
                  exact ⟨e, List.mem_append_left _ he, hev⟩
            rw [hsame, ← hpidEq]
            exact hinv.2
      · rw [updateProduct_unauthorized_eq st pid w d now product hfind
          (Or.inr ⟨artisan, hart, hauth⟩)]
        exact hWF

theorem wellFormed_purchaseProduct (st : Store) (pid b : String)
    (price : JsNumber) (env : PurchaseEnv) (hWF : WellFormed st) :
    WellFormed (purchaseProduct st pid b price env).2 := by
  cases hfind : st.currentProducts.find? (fun p => p.id == pid) with
  | none =>
    rw [purchaseProduct_notFound_eq st pid b price env hfind]
    exact hWF
  | some product =>
    cases hsold : product.isSold with
    | true =>
      rw [purchaseProduct_sold_eq st pid b price env product hfind hsold]
      exact hWF
    | false =>
      cases heth : env.hasEthereum with
      | false =>
        have heq : purchaseProduct st pid b price env = (⟨false, none⟩, st) := by
          unfold purchaseProduct
          simp [hfind, hsold, heth]
        rw [heq]
        exact hWF
      | true =>
        cases hsig : env.signerResult with
        | none =>
          have heq : purchaseProduct st pid b price env =
              (⟨false, none⟩, st) := by
            unfold purchaseProduct
            simp [hfind, hsold, heth, hsig]
          rw [heq]
          exact hWF
        | some txHash =>
          rw [purchaseProduct_success_eq st pid b price env product txHash
            hfind hsold heth hsig]
          have hf : ∀ p : Product,
              ((fun q : Product =>
                { q with isSold := true, ownerAddress := some b }) p).id =
                p.id :=
            fun p => rfl
          have hpidEq : product.id = pid := by
            have := List.find?_some hfind
            simpa using this
          constructor
          · show (productIds
              (purchasedState st pid b product txHash env.saleTime)).Nodup
            simp only [productIds, purchasedState]
            rw [map_id_replaceFirst _ _ _ hf]
            exact hWF.1
          · intro p' hp'
            simp only [purchasedState] at hp'
            rcases mem_replaceFirst_nodup st.currentProducts pid _ product
                hWF.1 hfind p' hp' with ⟨hmem, hne⟩ | heqp
            · have hinv := hWF.2 p' hmem
              refine ⟨hinv.1, ?_⟩
              have hprov : provHistory
                  (purchasedState st pid b product txHash env.saleTime) p'.id =
                  provHistory st p'.id := by
                simp only [provHistory, purchasedState]
                cases hpp : recGet st.currentProductProvenance pid with
                | none => rw [recGet_recSet_ne _ _ _ _ hne]
                | some pp => rw [recGet_recSet_ne _ _ _ _ hne]
              simp only [hasSoldEntry]
              rw [hprov]
              exact hinv.2
            · subst heqp
              refine ⟨by simp, ?_⟩
              have hhas : hasSoldEntry
                  (purchasedState st pid b product txHash env.saleTime)
                  pid := by
                simp only [hasSoldEntry, provHistory, purchasedState]
                cases hpp : recGet st.currentProductProvenance pid with
                | none =>
                  rw [recGet_recSet_self]
                  exact ⟨soldEntry b txHash env.saleTime, by simp, rfl⟩
                | some pp =>
                  rw [recGet_recSet_self]
                  exact ⟨soldEntry b txHash env.saleTime, by simp, rfl⟩
              rw [hpidEq]
              exact iff_of_true rfl hhas

/-! ## Ordering instances for the catalog sort -/

instance : IsTotal Product saleOrder :=
  ⟨fun a b => by
    unfold saleOrder jsCmp soldRank
    by_cases ha : a.isSold <;> by_cases hb : b.isSold <;>
      simp [ha, hb] <;> omega⟩

instance : IsTrans Product saleOrder :=
  ⟨fun a b c hab hbc => by
    unfold saleOrder jsCmp soldRank at hab hbc ⊢
    by_cases ha : a.isSold <;> by_cases hb : b.isSold <;>
      by_cases hc : c.isSold <;>
      simp [ha, hb, hc] at hab hbc ⊢ <;> omega⟩

theorem saleOrder_imp (a b : Product) (h : saleOrder a b) :
    (a.isSold = true → b.isSold = true) ∧
    (a.isSold = b.isSold → b.creationDate ≤ a.creationDate) := by
  unfold saleOrder jsCmp soldRank at h
  by_cases ha : a.isSold <;> by_cases hb : b.isSold <;>
    simp [ha, hb] at h ⊢ <;> omega

/-! ## Demo products for the ordering claim -/

def demoA : Product :=
  ⟨"A", "artisan-1", "ItemA", "", [], "", ⟨1, 0⟩, false, 1, true,
    some "0xCarol"⟩

def demoB : Product :=
  ⟨"B", "artisan-1", "ItemB", "", [], "", ⟨1, 0⟩, false, 2, false, none⟩

def demoC : Product :=
  ⟨"C", "artisan-1", "ItemC", "", [], "", ⟨1, 0⟩, false, 3, false, none⟩

def demoSortStore : Store := ⟨[demoA, demoB, demoC], [], [], []⟩

/-! ## The claims -/

/-- Claim C3: when the product does not exist or is already sold,
`purchaseProduct` returns a failure result and leaves the entire store — the
catalog, the ownership map and every provenance ledger — exactly as before
the call. -/
theorem purchase_unavailable_no_mutation (st : Store) (pid b : String)
    (price : JsNumber) (env : PurchaseEnv)
    (h : getProductById st pid = none ∨
      ∃ product, getProductById st pid = some product ∧
        product.isSold = true) :
    purchaseProduct st pid b price env = (⟨false, none⟩, st) := by
  rcases h with h | ⟨product, h, hsold⟩
  · exact purchaseProduct_notFound_eq st pid b price env h
  · exact purchaseProduct_sold_eq st pid b price env product h hsold

theorem purchase_unavailable_no_mutation_witness :
    (∃ product, getProductById demoStore "product-2" = some product ∧
      product.isSold = true) ∧
    purchaseProduct demoStore "product-2" "0xDave" ⟨5, 0⟩
      ⟨true, some "0xhash123", 20⟩ = (⟨false, none⟩, demoStore) :=
  ⟨⟨bowlProduct, by decide, by decide⟩,
    purchase_unavailable_no_mutation demoStore "product-2" "0xDave" ⟨5, 0⟩
      ⟨true, some "0xhash123", 20⟩
      (Or.inr ⟨bowlProduct, by decide, by decide⟩)⟩

/-- Claim C7: for an existing product, when the caller address resolves to no
artisan, or to an artisan whose id differs from the product's `artisanId`,
`updateProduct` fails and the whole store (so in particular the product and
its provenance) is left exactly unchanged. -/
theorem update_unauthorized_no_mutation (st : Store) (pid w : String)
    (d : ProductPatch) (now : ℕ) (product : Product)
    (hfind : getProductById st pid = some product)
    (hauth : (st.currentArtisans.find?
        (fun a => toLowerCase a.walletAddress == toLowerCase w) = none) ∨
      (∃ artisan, st.currentArtisans.find?
          (fun a => toLowerCase a.walletAddress == toLowerCase w) =
            some artisan ∧ product.artisanId ≠ artisan.id)) :
    updateProduct st pid d w now = (none, st) :=
  updateProduct_unauthorized_eq st pid w d now product hfind hauth

theorem update_unauthorized_no_mutation_witness :
    getProductById demoStore "product-1" = some vaseProduct ∧
    updateProduct demoStore "product-1" {} "0xBobWallet" 30 =
      (none, demoStore) :=
  ⟨by decide,
    update_unauthorized_no_mutation demoStore "product-1" "0xBobWallet" {} 30
      vaseProduct (by decide) (Or.inr ⟨bobArtisan, by decide, by decide⟩)⟩

/-- Claim C9: `purchaseProduct` never compares the price argument with the
stored price; two runs differing only in the price argument produce the same
result and the same store, and of the submitted transaction parameters only
the `value` field depends on the price. -/
theorem purchase_price_independence (st : Store) (pid b : String)
    (p1 p2 : JsNumber) (env : PurchaseEnv) (product : Product) :
    (purchaseProduct st pid b p1 env).2 =
      (purchaseProduct st pid b p2 env).2 ∧
    (purchaseProduct st pid b p1 env).1 =
      (purchaseProduct st pid b p2 env).1 ∧
    (purchaseTxParams product b p1).toAddr =
      (purchaseTxParams product b p2).toAddr ∧
    (purchaseTxParams product b p1).fromAddr =
      (purchaseTxParams product b p2).fromAddr ∧
    (purchaseTxParams product b p1).data =
      (purchaseTxParams product b p2).data ∧
    (purchaseTxParams product b p1).value = jsPriceInWei p1 :=
  ⟨rfl, rfl, rfl, rfl, rfl, rfl⟩

/-- Claim C10: every collectible issued by a successful purchase carries the
product-registry contract address, while the payment transaction is sent to
the distinct marketplace contract address. -/
theorem purchase_contract_addresses (st : Store) (pid b : String)
    (price : JsNumber) (env : PurchaseEnv) (product : Product)
    (txHash : String)
    (hfind : getProductById st pid = some product)
    (hunsold : product.isSold = false) (heth : env.hasEthereum = true)
    (hsig : env.signerResult = some txHash) :
    MOCK_PRODUCT_REGISTRY_CONTRACT_ADDRESS ≠
      MOCK_NFT_MARKETPLACE_CONTRACT_ADDRESS ∧
    (purchaseTxParams product b price).toAddr =
      MOCK_NFT_MARKETPLACE_CONTRACT_ADDRESS ∧
    getUserNfts (purchaseProduct st pid b price env).2 b =
      getUserNfts st b ++ [purchasedNft st product] ∧
    (purchasedNft st product).contractAddress =
      MOCK_PRODUCT_REGISTRY_CONTRACT_ADDRESS := by
  refine ⟨by decide, rfl, ?_, rfl⟩
  rw [purchaseProduct_success_eq st pid b price env product txHash hfind
    hunsold heth hsig]
  simp only [getUserNfts, purchasedState]
  rw [recGet_recSet_self]
  rfl

theorem purchase_contract_addresses_witness :
    getProductById demoStore "product-1" = some vaseProduct ∧
    getUserNfts (purchaseProduct demoStore "product-1" "0xDave" ⟨5, 0⟩
        ⟨true, some "0xhash123", 20⟩).2 "0xDave" =
      getUserNfts demoStore "0xDave" ++ [purchasedNft demoStore vaseProduct] :=
  ⟨by decide,
    (purchase_contract_addresses demoStore "product-1" "0xDave" ⟨5, 0⟩
      ⟨true, some "0xhash123", 20⟩ vaseProduct "0xhash123" (by decide)
      (by decide) (by decide) (by decide)).2.2.1⟩

/-- Claim C6: `getAllProducts` returns all catalog products, with no sold
product ever placed before an unsold one, within equal sold-status ordered by
creation timestamp descending; on the spec's example (A sold created 1,
B unsold created 2, C unsold created 3) the result is `[C, B, A]`. -/
theorem getAllProducts_ordering :
    (∀ st : Store,
      (getAllProducts st).Perm st.currentProducts ∧
      List.Pairwise
        (fun a b : Product =>
          (a.isSold = true → b.isSold = true) ∧
          (a.isSold = b.isSold → b.creationDate ≤ a.creationDate))
        (getAllProducts st)) ∧
    getAllProducts demoSortStore = [demoC, demoB, demoA] := by
  constructor
  · intro st
    refine ⟨List.perm_insertionSort _ _, ?_⟩
    have hs := List.sorted_insertionSort saleOrder st.currentProducts
    exact List.Pairwise.imp (fun h => saleOrder_imp _ _ h) hs
  · decide

/-- Claim C4 (amended): the conversion the code performs is
`Math.round(price * 1e18)` in IEEE-754 binary64 arithmetic; the transaction
value is that integer.  It agrees with the spec's exact contract
`round(price × 10^18)` on the spec's sample prices (`0.05` yields
`50000000000000000` and `1` yields `1000000000000000000`), but not on every
decimal price input. -/
theorem price_conversion_values :
    (∀ product b price, (purchaseTxParams product b price).value =
      jsPriceInWei price) ∧
    jsPriceInWeiDec 1 20 = 50000000000000000 ∧
    specWei 1 20 = 50000000000000000 ∧
    jsPriceInWeiDec 1 1 = 1000000000000000000 ∧
    specWei 1 1 = 1000000000000000000 :=
  ⟨fun _ _ _ => rfl, by decide, by decide, by decide, by decide⟩

/-- Claim C4 counterexample: at the decimal price
`4503599627370497 / 4503599627370496` (the finite decimal
`1.000000000000000222044…`, itself exactly representable in binary64) the
code computes `1000000000000000256` while the exact
`round(price × 10^18)` is `1000000000000000222`: the bit-exact equality
claimed for every decimal price fails. -/
theorem price_conversion_counterexample :
    jsPriceInWeiDec 4503599627370497 4503599627370496 =
      1000000000000000256 ∧
    specWei 4503599627370497 4503599627370496 = 1000000000000000222 ∧
    jsPriceInWeiDec 4503599627370497 4503599627370496 ≠
      specWei 4503599627370497 4503599627370496 :=
  ⟨by decide, by decide, by decide⟩

/-- The sold version of a product record, as written by a successful
purchase: `isSold` set, `ownerAddress` set to the buyer exactly as
submitted. -/
def soldVersion (product : Product) (b : String) : Product :=
  { product with isSold := true, ownerAddress := some b }

/-- Claim C2: a successful purchase returns success with the transaction
hash; afterwards the buyer's collectible list (stored under the lowercased
address key) has exactly the old list plus one new collectible whose
`tokenId` is the product id; `getProductById` yields the product marked sold
with `ownerAddress` equal to the buyer exactly as submitted; and the
provenance history has exactly one more entry, whose event is `"Sold"`. -/
theorem purchase_success_postconditions (st : Store) (pid b : String)
    (price : JsNumber) (env : PurchaseEnv) (product : Product)
    (txHash : String)
    (hfind : getProductById st pid = some product)
    (hunsold : product.isSold = false)
    (heth : env.hasEthereum = true) (hsig : env.signerResult = some txHash) :
    (purchaseProduct st pid b price env).1 = ⟨true, some txHash⟩ ∧
    getUserNfts (purchaseProduct st pid b price env).2 b =
      getUserNfts st b ++ [purchasedNft st product] ∧
    (purchasedNft st product).tokenId = pid ∧
    recGet (purchaseProduct st pid b price env).2.currentUserNfts
        (toLowerCase b) =
      some (getUserNfts st b ++ [purchasedNft st product]) ∧
    getProductById (purchaseProduct st pid b price env).2 pid =
      some (soldVersion product b) ∧
    (soldVersion product b).isSold = true ∧
    (soldVersion product b).ownerAddress = some b ∧
    provHistory (purchaseProduct st pid b price env).2 pid =
      provHistory st pid ++ [soldEntry b txHash env.saleTime] ∧
    (provHistory (purchaseProduct st pid b price env).2 pid).length =
      (provHistory st pid).length + 1 ∧
    (soldEntry b txHash env.saleTime).event = "Sold" := by
  have hpidEq : product.id = pid := by
    have := List.find?_some hfind
    simpa using this
  rw [purchaseProduct_success_eq st pid b price env product txHash hfind
    hunsold heth hsig]
  have hnfts : getUserNfts (purchasedState st pid b product txHash
      env.saleTime) b = getUserNfts st b ++ [purchasedNft st product] := by
    simp only [getUserNfts, purchasedState]
    rw [recGet_recSet_self]
    rfl
  have hprov : provHistory (purchasedState st pid b product txHash
      env.saleTime) pid =
      provHistory st pid ++ [soldEntry b txHash env.saleTime] := by
    cases hpp : recGet st.currentProductProvenance pid with
    | none =>
      simp only [provHistory, purchasedState, hpp]
      rw [recGet_recSet_self]
      rfl
    | some pp =>
      simp only [provHistory, purchasedState, hpp]
      rw [recGet_recSet_self]
      rfl
  refine ⟨rfl, hnfts, by simp [purchasedNft, hpidEq], ?_, ?_, rfl, rfl,
    hprov, by rw [hprov]; simp, rfl⟩
  · simp only [purchasedState]
    rw [recGet_recSet_self]
    rfl
  · simp only [getProductById, purchasedState]
    simp only [getProductById] at hfind
    rw [find?_replaceFirst_self st.currentProducts pid
      (fun p => { p with isSold := true, ownerAddress := some b })
      (fun p => rfl), hfind]
    rfl

theorem purchase_success_postconditions_witness :
    getProductById demoStore "product-1" = some vaseProduct ∧
    getUserNfts (purchaseProduct demoStore "product-1" "0xDave" ⟨5, 0⟩
        ⟨true, some "0xhash123", 20⟩).2 "0xDave" =
      getUserNfts demoStore "0xDave" ++
        [purchasedNft demoStore vaseProduct] ∧
    provHistory (purchaseProduct demoStore "product-1" "0xDave" ⟨5, 0⟩
        ⟨true, some "0xhash123", 20⟩).2 "product-1" =
      provHistory demoStore "product-1" ++ [soldEntry "0xDave" "0xhash123" 20] :=
  ⟨by decide,
    (purchase_success_postconditions demoStore "product-1" "0xDave" ⟨5, 0⟩
      ⟨true, some "0xhash123", 20⟩ vaseProduct "0xhash123" (by decide)
      (by decide) (by decide) (by decide)).2.1,
    (purchase_success_postconditions demoStore "product-1" "0xDave" ⟨5, 0⟩
      ⟨true, some "0xhash123", 20⟩ vaseProduct "0xhash123" (by decide)
      (by decide) (by decide) (by decide)).2.2.2.2.2.2.2.1⟩

/-- Claim C5: when `addProduct` succeeds for a registered artisan and the
generated id is fresh, an immediate `getProductById` on the new id returns
the product with `isSold = false` and no `ownerAddress`, and the provenance
history of the new id is exactly the `"Created & Minted by Artisan"` entry
followed by the `"Listed for Sale"` entry carrying the price (length 2,
hence at least 2). -/
theorem addProduct_postconditions (st : Store) (d : ProductData) (w : String)
    (env : AddEnv) (artisan : Artisan) (txHash : String)
    (hart : st.currentArtisans.find?
      (fun a => toLowerCase a.walletAddress == toLowerCase w) = some artisan)
    (heth : env.hasEthereum = true) (hsig : env.signerResult = some txHash)
    (hfresh : env.newId ∉ productIds st) :
    (addProduct st d w env).1.success = true ∧
    getProductById (addProduct st d w env).2 env.newId =
      some (mintedProduct d artisan.id env) ∧
    (mintedProduct d artisan.id env).isSold = false ∧
    (mintedProduct d artisan.id env).ownerAddress = none ∧
    provHistory (addProduct st d w env).2 env.newId =
      [createdEntry d.name w txHash env.mintTime,
       listedEntry w d.price env.listTime] ∧
    2 ≤ (provHistory (addProduct st d w env).2 env.newId).length ∧
    (createdEntry d.name w txHash env.mintTime).event =
      "Created & Minted by Artisan" ∧
    (listedEntry w d.price env.listTime).event = "Listed for Sale" ∧
    (listedEntry w d.price env.listTime).details = listedDetails d.price := by
  rw [addProduct_success_eq st d w env artisan txHash hart heth hsig]
  have hprov : provHistory
      ({ st with
        currentProducts := st.currentProducts ++ [mintedProduct d artisan.id env],
        currentProductProvenance :=
          recSet st.currentProductProvenance env.newId
            ⟨env.newId,
              [createdEntry d.name w txHash env.mintTime,
               listedEntry w d.price env.listTime]⟩ } : Store) env.newId =
      [createdEntry d.name w txHash env.mintTime,
       listedEntry w d.price env.listTime] := by
    simp only [provHistory]
    rw [recGet_recSet_self]
    rfl
  refine ⟨rfl, ?_, rfl, rfl, hprov, by rw [hprov]; simp, rfl, rfl, rfl⟩
  simp only [getProductById]
  rw [List.find?_append]
  have hnone : st.currentProducts.find? (fun p => p.id == env.newId) =
      none := by
    rw [List.find?_eq_none]
    intro p hp
    simp only [beq_iff_eq]
    intro hc
    exact hfresh (hc ▸ List.mem_map_of_mem (fun p => p.id) hp)
  rw [hnone]
  simp [mintedProduct]

theorem addProduct_postconditions_witness :
    getProductById (addProduct demoStore
        ⟨"Plate", "A plate", ["clay"], "img3", ⟨2, 0⟩, true⟩ "0xAliceWallet"
        ⟨true, some "0xhash456", "product-9", 40, 41⟩).2 "product-9" =
      some (mintedProduct
        ⟨"Plate", "A plate", ["clay"], "img3", ⟨2, 0⟩, true⟩ "artisan-1"
        ⟨true, some "0xhash456", "product-9", 40, 41⟩) ∧
    provHistory (addProduct demoStore
        ⟨"Plate", "A plate", ["clay"], "img3", ⟨2, 0⟩, true⟩ "0xAliceWallet"
        ⟨true, some "0xhash456", "product-9", 40, 41⟩).2 "product-9" =
      [createdEntry "Plate" "0xAliceWallet" "0xhash456" 40,
       listedEntry "0xAliceWallet" ⟨2, 0⟩ 41] :=
  ⟨(addProduct_postconditions demoStore
      ⟨"Plate", "A plate", ["clay"], "img3", ⟨2, 0⟩, true⟩ "0xAliceWallet"
      ⟨true, some "0xhash456", "product-9", 40, 41⟩ aliceArtisan "0xhash456"
      (by decide) (by decide) (by decide) (by decide)).2.1,
    (addProduct_postconditions demoStore
      ⟨"Plate", "A plate", ["clay"], "img3", ⟨2, 0⟩, true⟩ "0xAliceWallet"
      ⟨true, some "0xhash456", "product-9", 40, 41⟩ aliceArtisan "0xhash456"
      (by decide) (by decide) (by decide) (by decide)).2.2.2.2.1⟩

/-- Claim C1 (amended): in a well-formed store (distinct product ids and the
sold-state coupling invariant: `isSold` iff `ownerAddress` set iff a `"Sold"`
provenance entry exists), the invariant is preserved by `addProduct` (for a
fresh generated id), by `removeProduct`, by `purchaseProduct`, and by
`updateProduct` whenever the partial payload does not overwrite the `id`,
`isSold` or `ownerAddress` fields. -/
theorem sold_invariant_preserved (st : Store) (hWF : WellFormed st) :
    (∀ d w env, env.newId ∉ productIds st →
      WellFormed (addProduct st d w env).2) ∧
    (∀ pid d w now, d.id = none → d.isSold = none → d.ownerAddress = none →
      WellFormed (updateProduct st pid d w now).2) ∧
    (∀ pid w, WellFormed (removeProduct st pid w).2) ∧
    (∀ pid b price env, WellFormed (purchaseProduct st pid b price env).2) :=
  ⟨fun d w env hfresh => wellFormed_addProduct st d w env hWF hfresh,
    fun pid d w now hid hsold howner =>
      wellFormed_updateProduct st pid d w now hWF hid hsold howner,
    fun pid w => wellFormed_removeProduct st pid w hWF,
    fun pid b price env => wellFormed_purchaseProduct st pid b price env hWF⟩

/-- Claim C1 counterexample: `updateProduct` shallow-merges an arbitrary
`Partial<Product>` payload, so an authorized update carrying
`isSold: true` marks a product sold while its `ownerAddress` stays null and
no `"Sold"` provenance entry exists — the coupling invariant is not preserved
by `updateProduct` as the claim states it. -/
theorem sold_invariant_update_counterexample :
    WellFormed demoStore ∧
    ¬ SoldInvariant (updateProduct demoStore "product-1"
        { isSold := some true } "0xAliceWallet" 30).2 :=
  ⟨by decide, by decide⟩

theorem sold_invariant_preserved_witness :
    WellFormed demoStore ∧
    WellFormed (purchaseProduct demoStore "product-1" "0xDave" ⟨5, 0⟩
      ⟨true, some "0xhash123", 20⟩).2 ∧
    WellFormed (removeProduct demoStore "product-1" "0xAliceWallet").2 :=
  ⟨by decide,
    (sold_invariant_preserved demoStore (by decide)).2.2.2 "product-1"
      "0xDave" ⟨5, 0⟩ ⟨true, some "0xhash123", 20⟩,
    (sold_invariant_preserved demoStore (by decide)).2.2.1 "product-1"
      "0xAliceWallet"⟩

/-! ## Per-operation temporal guarantees -/

theorem fieldsPreserved_refl (st : Store) (hnd : (productIds st).Nodup) :
    FieldsPreserved st st := by
  intro p hp p' hp' hid
  have hpe : p = p' := List.inj_on_of_nodup_map hnd hp hp' hid
  subst hpe
  exact ⟨rfl, fun h => h, fun _ => rfl⟩

theorem fieldsPreserved_trans (st0 st1 st2 : Store)
    (h01 : FieldsPreserved st0 st1) (h12 : FieldsPreserved st1 st2)
    (hids : ∀ i, i ∈ productIds st0 → i ∈ productIds st2 →
      i ∈ productIds st1) :
    FieldsPreserved st0 st2 := by
  intro p hp p2 hp2 hid
  have hi : p.id ∈ productIds st1 :=
    hids p.id (List.mem_map_of_mem _ hp)
      (hid ▸ List.mem_map_of_mem (fun q => q.id) hp2)
  rcases List.mem_map.mp hi with ⟨p1, hp1, hpid1⟩
  have h1 := h01 p hp p1 hp1 hpid1.symm
  have h2 := h12 p1 hp1 p2 hp2 (hpid1.trans hid)
  refine ⟨h1.1.trans h2.1, fun hs => h2.2.1 (h1.2.1 hs), fun ho => ?_⟩
  have e1 := h1.2.2 ho
  have ho1 : p1.ownerAddress.isSome = true := by rw [e1]; exact ho
  rw [h2.2.2 ho1, e1]

theorem fields_addProduct (st : Store) (d : ProductData) (w : String)
    (env : AddEnv) (hWF : WellFormed st)
    (hfresh : env.newId ∉ productIds st) :
    FieldsPreserved st (addProduct st d w env).2 ∧
    ∀ i ∈ productIds (addProduct st d w env).2,
      i ∈ productIds st ∨ i = env.newId := by
  cases hart : st.currentArtisans.find?
      (fun a => toLowerCase a.walletAddress == toLowerCase w) with
  | none =>
    have heq : addProduct st d w env = (⟨false, none, none⟩, st) := by
      unfold addProduct
      simp only [hart]
    rw [heq]
    exact ⟨fieldsPreserved_refl st hWF.1, fun i hi => Or.inl hi⟩
  | some artisan =>
    cases heth : env.hasEthereum with
    | false =>
      have heq : addProduct st d w env = (⟨false, none, none⟩, st) := by
        unfold addProduct
        simp [hart, heth]
      rw [heq]
      exact ⟨fieldsPreserved_refl st hWF.1, fun i hi => Or.inl hi⟩
    | true =>
      cases hsig : env.signerResult with
      | none =>
        have heq : addProduct st d w env = (⟨false, none, none⟩, st) := by
          unfold addProduct
          simp [hart, heth, hsig]
        rw [heq]
        exact ⟨fieldsPreserved_refl st hWF.1, fun i hi => Or.inl hi⟩
      | some txHash =>
        rw [addProduct_success_eq st d w env artisan txHash hart heth hsig]
        constructor
        · intro p hp p' hp' hid
          rcases List.mem_append.mp hp' with hp' | hp'
          · have hpe : p = p' := List.inj_on_of_nodup_map hWF.1 hp hp' hid
            subst hpe
            exact ⟨rfl, fun h => h, fun _ => rfl⟩
          · exfalso
            simp only [List.mem_singleton] at hp'
            subst hp'
            have hpid2 : p.id = env.newId := hid
            exact hfresh (hpid2 ▸ List.mem_map_of_mem (fun q => q.id) hp)
        · intro i hi
          simp only [productIds, List.map_append, List.mem_append,
            List.map_cons, List.map_nil, List.mem_singleton] at hi
          rcases hi with hi | hi
          · exact Or.inl hi
          · exact Or.inr hi

theorem fields_updateProduct (st : Store) (pid : String) (d : ProductPatch)
    (w : String) (now : ℕ) (hWF : WellFormed st)
    (hid : d.id = none) (hdate : d.creationDate = none)
    (hsold : d.isSold = none) (howner : d.ownerAddress = none) :
    FieldsPreserved st (updateProduct st pid d w now).2 ∧
    productIds (updateProduct st pid d w now).2 = productIds st := by
  cases hfind : st.currentProducts.find? (fun p => p.id == pid) with
  | none =>
    have heq : updateProduct st pid d w now = (none, st) := by
      unfold updateProduct
      simp only [hfind]
    rw [heq]
    exact ⟨fieldsPreserved_refl st hWF.1, rfl⟩
  | some product =>
    cases hart : st.currentArtisans.find?
        (fun a => toLowerCase a.walletAddress == toLowerCase w) with
    | none =>
      rw [updateProduct_unauthorized_eq st pid w d now product hfind
        (Or.inl hart)]
      exact ⟨fieldsPreserved_refl st hWF.1, rfl⟩
    | some artisan =>
      by_cases hauth : product.artisanId = artisan.id
      · rw [updateProduct_success_eq st pid w d now product artisan hfind
          hart hauth]
        have hf : ∀ p : Product, (mergeProduct p d).id = p.id := fun p => by
          simp [mergeProduct, hid]
        constructor
        · intro p hp p' hp' hpid
          simp only [updatedState] at hp'
          rcases mem_replaceFirst_nodup st.currentProducts pid _ product
              hWF.1 hfind p' hp' with ⟨hmem, _⟩ | heqp
          · have hpe : p = p' := List.inj_on_of_nodup_map hWF.1 hp hmem hpid
            subst hpe
            exact ⟨rfl, fun h => h, fun _ => rfl⟩
          · have hpe : p = product := by
              apply List.inj_on_of_nodup_map hWF.1 hp
                (List.mem_of_find?_eq_some hfind)
              rw [hpid, heqp, hf]
            subst hpe
            subst heqp
            refine ⟨by simp [mergeProduct, hdate], ?_, ?_⟩
            · intro h
              simpa [mergeProduct, hsold] using h
            · intro _
              simp [mergeProduct, howner]
        · show productIds (updatedState st pid w d product now) = productIds st
          simp only [productIds, updatedState]
          exact map_id_replaceFirst st.currentProducts pid _ hf
      · rw [updateProduct_unauthorized_eq st pid w d now product hfind
          (Or.inr ⟨artisan, hart, hauth⟩)]
        exact ⟨fieldsPreserved_refl st hWF.1, rfl⟩

theorem fields_removeProduct (st : Store) (pid w : String)
    (hWF : WellFormed st) :
    FieldsPreserved st (removeProduct st pid w).2 ∧
    ∀ i ∈ productIds (removeProduct st pid w).2, i ∈ productIds st := by
  cases hfind : st.currentProducts.find? (fun p => p.id == pid) with
  | none =>
    have heq : removeProduct st pid w = (false, st) := by
      unfold removeProduct
      simp only [hfind]
    rw [heq]
    exact ⟨fieldsPreserved_refl st hWF.1, fun i hi => hi⟩
  | some product =>
    cases hart : st.currentArtisans.find?
        (fun a => toLowerCase a.walletAddress == toLowerCase w) with
    | none =>
      have heq : removeProduct st pid w = (false, st) := by
        unfold removeProduct
        simp only [hfind, hart]
      rw [heq]
      exact ⟨fieldsPreserved_refl st hWF.1, fun i hi => hi⟩
    | some artisan =>
      by_cases hauth : product.artisanId = artisan.id
      · rw [removeProduct_success_eq st pid w product artisan hfind hart
          hauth]
        constructor
        · intro p hp p' hp' hpid
          have hmem := (mem_removeFirst_nodup st.currentProducts pid hWF.1
            p' hp').1
          have hpe : p = p' := List.inj_on_of_nodup_map hWF.1 hp hmem hpid
          subst hpe
          exact ⟨rfl, fun h => h, fun _ => rfl⟩
        · intro i hi
          simp only [productIds] at hi ⊢
          rcases List.mem_map.mp hi with ⟨p', hp', hip⟩
          exact hip ▸ List.mem_map_of_mem (fun q => q.id)
            (mem_removeFirst_nodup st.currentProducts pid hWF.1 p' hp').1
      · have heq : removeProduct st pid w = (false, st) := by
          unfold removeProduct
          simp only [hfind, hart,
            if_pos (show (product.artisanId != artisan.id) = true by
              simp [hauth])]
        rw [heq]
        exact ⟨fieldsPreserved_refl st hWF.1, fun i hi => hi⟩

theorem fields_purchaseProduct (st : Store) (pid b : String)
    (price : JsNumber) (env : PurchaseEnv) (hWF : WellFormed st) :
    FieldsPreserved st (purchaseProduct st pid b price env).2 ∧
    productIds (purchaseProduct st pid b price env).2 = productIds st := by
  cases hfind : st.currentProducts.find? (fun p => p.id == pid) with
  | none =>
    rw [purchaseProduct_notFound_eq st pid b price env hfind]
    exact ⟨fieldsPreserved_refl st hWF.1, rfl⟩
  | some product =>
    cases hsold : product.isSold with
    | true =>
      rw [purchaseProduct_sold_eq st pid b price env product hfind hsold]
      exact ⟨fieldsPreserved_refl st hWF.1, rfl⟩
    | false =>
      cases heth : env.hasEthereum with
      | false =>
        have heq : purchaseProduct st pid b price env =
            (⟨false, none⟩, st) := by
          unfold purchaseProduct
          simp [hfind, hsold, heth]
        rw [heq]
        exact ⟨fieldsPreserved_refl st hWF.1, rfl⟩
      | true =>
        cases hsig : env.signerResult with
        | none =>
          have heq : purchaseProduct st pid b price env =
              (⟨false, none⟩, st) := by
            unfold purchaseProduct
            simp [hfind, hsold, heth, hsig]
          rw [heq]
          exact ⟨fieldsPreserved_refl st hWF.1, rfl⟩
        | some txHash =>
          rw [purchaseProduct_success_eq st pid b price env product txHash
            hfind hsold heth hsig]
          have hf : ∀ p : Product,
              ((fun q : Product =>
                { q with isSold := true, ownerAddress := some b }) p).id =
                p.id :=
            fun p => rfl
          constructor
          · intro p hp p' hp' hpid
            simp only [purchasedState] at hp'
            rcases mem_replaceFirst_nodup st.currentProducts pid _ product
                hWF.1 hfind p' hp' with ⟨hmem, _⟩ | heqp
            · have hpe : p = p' := List.inj_on_of_nodup_map hWF.1 hp hmem
                hpid
              subst hpe
              exact ⟨rfl, fun h => h, fun _ => rfl⟩
            · have hpe : p = product := by
                apply List.inj_on_of_nodup_map hWF.1 hp
                  (List.mem_of_find?_eq_some hfind)
                rw [hpid, heqp]
              subst hpe
              subst heqp
              refine ⟨rfl, fun _ => rfl, ?_⟩
              intro ho
              exfalso
              have hinv := (hWF.2 p hp).1
              rw [hsold] at hinv
              have hnone : p.ownerAddress = none := by
                by_contra hc
                exact absurd (hinv.mpr hc) (by simp)
              rw [hnone] at ho
              simp at ho
          · show productIds (purchasedState st pid b product txHash
              env.saleTime) = productIds st
            simp only [productIds, purchasedState]
            exact map_id_replaceFirst st.currentProducts pid _ hf

theorem genIds_cons (op : Op) (ops : List Op) :
    genIds (op :: ops) = genIds [op] ++ genIds ops := by
  cases op <;> simp [genIds]

theorem wellFormed_applyOp (st : Store) (op : Op) (hWF : WellFormed st)
    (htame : TameOp op)
    (hfresh : ∀ i ∈ genIds [op], i ∉ productIds st) :
    WellFormed (applyOp st op) := by
  cases op with
  | add d w env =>
    exact wellFormed_addProduct st d w env hWF
      (hfresh env.newId (by simp [genIds]))
  | update pid d w now =>
    exact wellFormed_updateProduct st pid d w now hWF htame.1 htame.2.2.1
      htame.2.2.2
  | remove pid w => exact wellFormed_removeProduct st pid w hWF
  | purchase pid b price env =>
    exact wellFormed_purchaseProduct st pid b price env hWF

theorem fields_applyOp (st : Store) (op : Op) (hWF : WellFormed st)
    (htame : TameOp op)
    (hfresh : ∀ i ∈ genIds [op], i ∉ productIds st) :
    FieldsPreserved st (applyOp st op) ∧
    ∀ i ∈ productIds (applyOp st op),
      i ∈ productIds st ∨ i ∈ genIds [op] := by
  cases op with
  | add d w env =>
    have h := fields_addProduct st d w env hWF
      (hfresh env.newId (by simp [genIds]))
    exact ⟨h.1, fun i hi =>
      (h.2 i hi).imp id (fun he => by simp [genIds, he])⟩
  | update pid d w now =>
    have h := fields_updateProduct st pid d w now hWF htame.1 htame.2.1
      htame.2.2.1 htame.2.2.2
    exact ⟨h.1, fun i hi => Or.inl (h.2 ▸ hi)⟩
  | remove pid w =>
    have h := fields_removeProduct st pid w hWF
    exact ⟨h.1, fun i hi => Or.inl (h.2 i hi)⟩
  | purchase pid b price env =>
    have h := fields_purchaseProduct st pid b price env hWF
    exact ⟨h.1, fun i hi => Or.inl (h.2 ▸ hi)⟩

theorem run_preserves (ops : List Op) : ∀ st : Store,
    WellFormed st → (∀ op ∈ ops, TameOp op) →
    (productIds st ++ genIds ops).Nodup →
    WellFormed (run st ops) ∧ FieldsPreserved st (run st ops) ∧
    ∀ i ∈ productIds (run st ops),
      i ∈ productIds st ∨ i ∈ genIds ops := by
  induction ops with
  | nil =>
    intro st hWF _ _
    exact ⟨hWF, fieldsPreserved_refl st hWF.1, fun i hi => Or.inl hi⟩
  | cons op ops ih =>
    intro st hWF htame hfresh
    rw [genIds_cons] at hfresh
    rcases List.nodup_append.mp hfresh with ⟨hnd0, hndbc, hdisj0⟩
    rcases List.nodup_append.mp hndbc with ⟨hndb, hndc, hdisjbc⟩
    have hopfresh : ∀ i ∈ genIds [op], i ∉ productIds st := by
      intro i hib hi0
      exact hdisj0 hi0 (List.mem_append_left _ hib)
    have htame0 : TameOp op := htame op (List.mem_cons_self op ops)
    have hWF1 : WellFormed (applyOp st op) :=
      wellFormed_applyOp st op hWF htame0 hopfresh
    have hstep := fields_applyOp st op hWF htame0 hopfresh
    have hfresh1 :
        (productIds (applyOp st op) ++ genIds ops).Nodup := by
      rw [List.nodup_append]
      refine ⟨hWF1.1, hndc, ?_⟩
      intro i hi1 hic
      rcases hstep.2 i hi1 with hi0 | hib
      · exact hdisj0 hi0 (List.mem_append_right _ hic)
      · exact hdisjbc hib hic
    have hrest := ih (applyOp st op) hWF1
      (fun o ho => htame o (List.mem_cons_of_mem op ho)) hfresh1
    have hrun : run st (op :: ops) = run (applyOp st op) ops := rfl
    rw [hrun]
    refine ⟨hrest.1, ?_, ?_⟩
    · refine fieldsPreserved_trans st (applyOp st op) (run (applyOp st op)
        ops) hstep.1 hrest.2.1 ?_
      intro i hi0 hi2
      rcases hrest.2.2 i hi2 with hi1 | hic
      · exact hi1
      · exact absurd (List.mem_append_right _ hic) (hdisj0 hi0)
    · intro i hi
      rcases hrest.2.2 i hi with hi1 | hic
      · rcases hstep.2 i hi1 with hi0 | hib
        · exact Or.inl hi0
        · exact Or.inr (genIds_cons op ops ▸ List.mem_append_left _ hib)
      · exact Or.inr (genIds_cons op ops ▸ List.mem_append_right _ hic)

/-- Claim C8 (amended): starting from a well-formed store, across every
sequence of core operations in which generated product ids are globally
fresh and every `updateProduct` payload leaves `id`, `creationDate`,
`isSold`, `ownerAddress` unset, each product (matched by id) keeps its
creation date, `isSold` only ever transitions from `false` to `true`, a set
`ownerAddress` never changes (it is assigned only at sale time), and no
product id ever appears that is not an initial or a generated one. -/
theorem temporal_field_immutability (st : Store) (ops : List Op)
    (hWF : WellFormed st) (htame : ∀ op ∈ ops, TameOp op)
    (hfresh : (productIds st ++ genIds ops).Nodup) :
    WellFormed (run st ops) ∧
    FieldsPreserved st (run st ops) ∧
    (∀ i ∈ productIds (run st ops),
      i ∈ productIds st ∨ i ∈ genIds ops) :=
  run_preserves ops st hWF htame hfresh

/-- Claim C8 counterexample: `updateProduct` shallow-merges an arbitrary
`Partial<Product>` payload, so an authorized update carrying a
`creationDate` field rewrites the creation date of an existing product —
`creationDate` is not immutable across core operations as the claim
states. -/
theorem temporal_field_immutability_counterexample :
    (getProductById demoStore "product-1").map (fun p => p.creationDate) =
      some 10 ∧
    (getProductById (run demoStore
        [Op.update "product-1" { creationDate := some 999 } "0xAliceWallet"
          30]) "product-1").map (fun p => p.creationDate) = some 999 :=
  ⟨by decide, by decide⟩

def demoOps : List Op :=
  [Op.update "product-1" { name := some "Vase2" } "0xAliceWallet" 30,
   Op.purchase "product-1" "0xDave" ⟨5, 0⟩ ⟨true, some "0xhash123", 31⟩,
   Op.add ⟨"Plate", "A plate", ["clay"], "img3", ⟨2, 0⟩, true⟩
     "0xAliceWallet" ⟨true, some "0xhash456", "product-9", 40, 41⟩,
   Op.remove "product-2" "0xAliceWallet"]

theorem temporal_field_immutability_witness :
    (∀ op ∈ demoOps, TameOp op) ∧
    (productIds demoStore ++ genIds demoOps).Nodup ∧
    FieldsPreserved demoStore (run demoStore demoOps) :=
  ⟨by decide, by decide,
    (temporal_field_immutability demoStore demoOps (by decide) (by decide)
      (by decide)).2.1⟩
